import Mathlib

/-!
Shallow embedding of the thermomix-scraper crawl engine
(`src/thermomix_scraper/{models,state,scraper,algolia,config}.py`).

Python sets of identifier strings become `Finset String`; Python strings
become `String` (inspected through their `List Char` data); the filesystem
of record files is passed in explicitly (an existence predicate or an
association list); fallible parsing returns `Option`.
-/

/-- `RunMode` from `config.py`. -/
inductive RunMode where
  | SKIP_EXISTING
  | UPDATE
  | REDOWNLOAD_ALL
  | CONTINUE
  deriving DecidableEq, Repr

/-- `Recipe` from `models.py` (field for field; Python `float` becomes
`Float`, `dict[str, str | None]` becomes an association list). -/
structure Recipe where
  id : String
  title : String := ""
  source_url : Option String := none
  language : Option String := none
  rating_score : Option Float := none
  rating_count : Option Int := none
  tm_versions : List String := []
  ingredients : List String := []
  steps : List String := []
  tags : List String := []
  nutritions : List (String × Option String) := []

/-- `Recipe.is_complete`: `bool(self.ingredients or self.steps)`. -/
def Recipe.is_complete (r : Recipe) : Bool :=
  !r.ingredients.isEmpty || !r.steps.isEmpty

/-- Naive `datetime` value as produced by `datetime.now()` (no tzinfo). -/
structure PyDateTime where
  year : Nat
  month : Nat
  day : Nat
  hour : Nat
  minute : Nat
  second : Nat
  microsecond : Nat
  deriving DecidableEq, Repr

/-- The range checks Python's `datetime` constructor enforces. -/
def PyDateTime.valid (t : PyDateTime) : Prop :=
  1 ≤ t.year ∧ t.year ≤ 9999 ∧ 1 ≤ t.month ∧ t.month ≤ 12 ∧
  1 ≤ t.day ∧ t.day ≤ 31 ∧ t.hour ≤ 23 ∧ t.minute ≤ 59 ∧
  t.second ≤ 59 ∧ t.microsecond ≤ 999999

instance (t : PyDateTime) : Decidable t.valid := by
  unfold PyDateTime.valid; infer_instance

/-- `ScrapeState` from `models.py`: the four identifier sets plus the
timestamp. -/
structure ScrapeState where
  discovered : Finset String := ∅
  pending : Finset String := ∅
  completed : Finset String := ∅
  failed : Finset String := ∅
  last_updated : PyDateTime
  deriving DecidableEq

/-- `StateManager.mark_discovered`. -/
def mark_discovered (s : ScrapeState) (rid : String) : ScrapeState :=
  { s with discovered := insert rid s.discovered }

/-- `StateManager.mark_pending`. -/
def mark_pending (s : ScrapeState) (rid : String) : ScrapeState :=
  { s with pending := insert rid s.pending }

/-- `StateManager.mark_completed`. -/
def mark_completed (s : ScrapeState) (rid : String) : ScrapeState :=
  { s with completed := insert rid s.completed,
           pending := s.pending.erase rid,
           failed := s.failed.erase rid }

/-- `StateManager.mark_failed`. -/
def mark_failed (s : ScrapeState) (rid : String) : ScrapeState :=
  { s with failed := insert rid s.failed,
           pending := s.pending.erase rid }

/-- `StateManager.should_download`.  The run mode (read from the config)
and the record-file existence test (`recipe_exists`, a disk probe) are
passed in explicitly. -/
def should_download (mode : RunMode) (s : ScrapeState)
    (file_exists : String → Bool) (rid : String) : Bool :=
  match mode with
  | .REDOWNLOAD_ALL => true
  | .UPDATE => true
  | .CONTINUE => rid ∈ s.pending ∨ rid ∈ s.failed
  | .SKIP_EXISTING =>
    if rid ∈ s.completed then false
    else !file_exists rid

/-- The crawl-state invariants stated in the spec (§3): `completed` and
`pending` disjoint, `failed` and `pending` disjoint, `discovered` a
superset of the union of the other three. -/
def Invariants (s : ScrapeState) : Prop :=
  (∀ x ∈ s.completed, x ∉ s.pending) ∧
  (∀ x ∈ s.failed, x ∉ s.pending) ∧
  (∀ x ∈ s.pending, x ∈ s.discovered) ∧
  (∀ x ∈ s.completed, x ∈ s.discovered) ∧
  (∀ x ∈ s.failed, x ∈ s.discovered)

instance (s : ScrapeState) : Decidable (Invariants s) := by
  unfold Invariants; infer_instance

/-- One iteration of `StateManager._scan_existing_recipes` on one file of
the output directory: `rid` is the file stem, `content` the result of
parsing the file (`none` for a corrupt/unreadable file). -/
def scanStep (s : ScrapeState) (rid : String) (content : Option Recipe) :
    ScrapeState :=
  match content with
  | some r =>
    let s1 := { s with discovered := insert rid s.discovered }
    if r.is_complete then
      { s1 with completed := insert rid s1.completed,
                pending := s1.pending.erase rid }
    else
      { s1 with pending := insert rid s1.pending }
  | none =>
    { s with discovered := insert rid s.discovered,
             completed := insert rid s.completed }

/-- `StateManager._scan_existing_recipes` over the whole directory
listing (already filtered of dot-files, as the source's glob loop does). -/
def scanExisting (s : ScrapeState) (files : List (String × Option Recipe)) :
    ScrapeState :=
  files.foldl (fun acc pr => scanStep acc pr.1 pr.2) s

/-- Python `str.strip()` on the character list of a string. -/
def pyStrip (l : List Char) : List Char :=
  ((l.dropWhile Char.isWhitespace).reverse.dropWhile Char.isWhitespace).reverse

/-- `RecipeScraper._normalize_id` (Python `isdigit` modelled on the ASCII
digits the identifiers use). -/
def normalize_id (s : String) : Option String :=
  match pyStrip s.data with
  | [] => none
  | c :: cs =>
    let rid := if c.isDigit then 'r' :: c :: cs else c :: cs
    let rid := if rid.head? = some 'r' then rid
               else 'r' :: rid.dropWhile (fun x => x = 'r')
    some (String.mk rid)

/- ------------------------------------------------------------------ -/
/- C1: the fetch-decision table, and skip-existing after completion.   -/
/- ------------------------------------------------------------------ -/

/-- C1: `should_download` returns true in force-redownload mode and in
update mode; in continue mode it is true iff the id is pending or failed;
in skip-existing mode it is false whenever the id is completed and
otherwise true iff the record file is absent; and immediately after
`mark_completed id` the skip-existing decision for `id` is false. -/
theorem C1_should_download_table (s : ScrapeState)
    (file_exists : String → Bool) (rid : String) :
    should_download .REDOWNLOAD_ALL s file_exists rid = true ∧
    should_download .UPDATE s file_exists rid = true ∧
    (should_download .CONTINUE s file_exists rid = true ↔
      rid ∈ s.pending ∨ rid ∈ s.failed) ∧
    (rid ∈ s.completed →
      should_download .SKIP_EXISTING s file_exists rid = false) ∧
    (rid ∉ s.completed →
      (should_download .SKIP_EXISTING s file_exists rid = true ↔
        file_exists rid = false)) ∧
    should_download .SKIP_EXISTING (mark_completed s rid) file_exists rid
      = false := by
  refine ⟨rfl, rfl, ?_, ?_, ?_, ?_⟩
  · simp [should_download]
  · intro h; simp [should_download, h]
  · intro h; simp [should_download, h]
  · simp [should_download, mark_completed]

/-- C1 witness: the table evaluated at a concrete state and id. -/
theorem C1_should_download_table_witness :
    (let s : ScrapeState :=
      { pending := {"r1"}, completed := {"r2"},
        last_updated := ⟨2024, 1, 1, 0, 0, 0, 0⟩ }
     should_download .CONTINUE s (fun _ => false) "r1" = true ∧
       should_download .SKIP_EXISTING (mark_completed s "r1")
         (fun _ => false) "r1" = false) := by
  refine ⟨?_, ?_⟩
  · exact (C1_should_download_table _ (fun _ => false) "r1").2.2.1.mpr
      (Or.inl (by decide))
  · exact (C1_should_download_table _ (fun _ => false) "r1").2.2.2.2.2

/- ------------------------------------------------------------------ -/
/- C9: identifier normalization.                                       -/
/- ------------------------------------------------------------------ -/

theorem digit_not_whitespace (c : Char) (h : c.isDigit = true) :
    c.isWhitespace = false := by
  by_contra hw
  rw [Bool.not_eq_false, Char.isWhitespace] at hw
  simp only [Bool.or_eq_true, decide_eq_true_eq] at hw
  rcases hw with ((h1 | h1) | h1) | h1 <;> subst h1 <;>
    exact absurd h (by decide)

theorem pyStrip_of_no_whitespace (l : List Char)
    (h : ∀ c ∈ l, c.isWhitespace = false) : pyStrip l = l := by
  have h1 : l.dropWhile Char.isWhitespace = l := by
    cases l with
    | nil => rfl
    | cons a as =>
      rw [List.dropWhile_cons, h a (List.mem_cons_self a as)]
      simp
  unfold pyStrip
  rw [h1]
  have h2 : l.reverse.dropWhile Char.isWhitespace = l.reverse := by
    cases hrev : l.reverse with
    | nil => rfl
    | cons a as =>
      rw [List.dropWhile_cons]
      have ha : a ∈ l := by
        have : a ∈ l.reverse := by rw [hrev]; exact List.mem_cons_self a as
        simpa using this
      rw [h a ha]; simp
  rw [h2, List.reverse_reverse]

/-- C9: normalization maps `"123"` to `"r123"`, leaves `"r123"`
unchanged, yields none on `""`, and prepends `'r'` to every bare numeric
identifier. -/
theorem C9_normalize_id (l : List Char) (hne : l ≠ [])
    (hdig : ∀ c ∈ l, c.isDigit = true) :
    normalize_id "123" = some "r123" ∧
    normalize_id "r123" = some "r123" ∧
    normalize_id "" = none ∧
    normalize_id (String.mk l) = some (String.mk ('r' :: l)) := by
  refine ⟨by decide, by decide, by decide, ?_⟩
  have hstrip : pyStrip l = l :=
    pyStrip_of_no_whitespace l (fun c hc => digit_not_whitespace c (hdig c hc))
  cases l with
  | nil => exact absurd rfl hne
  | cons c cs =>
    have hc : c.isDigit = true := hdig c (List.mem_cons_self c cs)
    show normalize_id ⟨c :: cs⟩ = _
    unfold normalize_id
    simp only [hstrip]
    simp [hc]

/-- C9 witness: the general clause applied at the concrete id `"42"`. -/
theorem C9_normalize_id_witness :
    normalize_id "42" = some "r42" := by
  have h := C9_normalize_id ['4', '2'] (by decide) (by decide)
  exact h.2.2.2

/- ------------------------------------------------------------------ -/
/- C4: continue-mode queue seeding.                                    -/
/- ------------------------------------------------------------------ -/

/-- The resume branch of `RecipeScraper._run_discovery_and_download`:
when the mode is CONTINUE and the loaded pending set is non-empty, the
discovery producer is skipped and the download queue is seeded with the
pending identifiers (`some queueContents`); otherwise the discovery
thread is started instead (`none`). -/
def resumeSeed (mode : RunMode) (s : ScrapeState) : Option (Finset String) :=
  if mode = RunMode.CONTINUE ∧ s.pending.Nonempty then some s.pending
  else none

/-- C4: in continue mode with non-empty pending, discovery is skipped and
the queue is seeded with exactly the pending identifiers; an identifier
that is only in failed is not enqueued. -/
theorem C4_resume_seeds_pending (s : ScrapeState) (h : s.pending.Nonempty) :
    resumeSeed RunMode.CONTINUE s = some s.pending ∧
    ∀ rid ∈ s.failed, rid ∉ s.pending →
      ∀ q, resumeSeed RunMode.CONTINUE s = some q → rid ∉ q := by
  have hseed : resumeSeed RunMode.CONTINUE s = some s.pending := by
    simp [resumeSeed, h]
  refine ⟨hseed, ?_⟩
  intro rid _ hnp q hq
  rw [hseed] at hq
  cases hq
  exact hnp

/-- C4 witness: the spec scenario pending = {r1, r2}, failed = {r3}. -/
theorem C4_resume_seeds_pending_witness :
    (let s : ScrapeState :=
      { pending := {"r1", "r2"}, failed := {"r3"},
        last_updated := ⟨2024, 1, 1, 0, 0, 0, 0⟩ }
     resumeSeed RunMode.CONTINUE s = some {"r1", "r2"} ∧
       ∀ q, resumeSeed RunMode.CONTINUE s = some q → "r3" ∉ q) := by
  have h := C4_resume_seeds_pending
    { pending := {"r1", "r2"}, failed := {"r3"},
      last_updated := ⟨2024, 1, 1, 0, 0, 0, 0⟩ }
    ⟨"r1", by decide⟩
  exact ⟨h.1, h.2 "r3" (by decide) (by decide)⟩

/- ------------------------------------------------------------------ -/
/- C8: startup-scan classification of record files.                    -/
/- ------------------------------------------------------------------ -/

/-- C8: a parsed complete record is added to completed (and removed from
pending) and to discovered; a parsed record with empty ingredients and
steps is not complete and is classified as pending; a corrupt file is
classified as completed, never as a retry candidate. -/
theorem C8_scan_classification (s : ScrapeState) (rid : String) (r : Recipe) :
    (r.is_complete = true →
      (scanStep s rid (some r)).completed = insert rid s.completed ∧
      (scanStep s rid (some r)).pending = s.pending.erase rid ∧
      (scanStep s rid (some r)).discovered = insert rid s.discovered ∧
      (scanStep s rid (some r)).failed = s.failed) ∧
    (r.ingredients = [] → r.steps = [] → r.is_complete = false) ∧
    (r.is_complete = false →
      (scanStep s rid (some r)).pending = insert rid s.pending ∧
      (scanStep s rid (some r)).discovered = insert rid s.discovered ∧
      (scanStep s rid (some r)).completed = s.completed ∧
      (scanStep s rid (some r)).failed = s.failed) ∧
    ((scanStep s rid none).completed = insert rid s.completed ∧
      (scanStep s rid none).discovered = insert rid s.discovered ∧
      (scanStep s rid none).pending = s.pending ∧
      (scanStep s rid none).failed = s.failed) := by
  refine ⟨?_, ?_, ?_, ?_, ?_, ?_, ?_⟩
  · intro h; simp [scanStep, h]
  · intro hi hs; simp [Recipe.is_complete, hi, hs]
  · intro h; simp [scanStep, h]
  · rfl
  · rfl
  · rfl
  · rfl

/-- C8 witness: classification evaluated at a concrete state, a complete
record, an empty record, and a corrupt file. -/
theorem C8_scan_classification_witness :
    (let s : ScrapeState :=
      { pending := {"r1"}, last_updated := ⟨2024, 1, 1, 0, 0, 0, 0⟩ }
     let good : Recipe := { id := "r1", ingredients := ["flour"] }
     let empty : Recipe := { id := "r2" }
     (scanStep s "r1" (some good)).completed = {"r1"} ∧
       (scanStep s "r1" (some good)).pending = ∅ ∧
       empty.is_complete = false ∧
       (scanStep s "r2" (some empty)).pending = {"r1", "r2"} ∧
       (scanStep s "r3" none).completed = {"r3"}) := by
  have h1 := C8_scan_classification
    { pending := {"r1"}, last_updated := ⟨2024, 1, 1, 0, 0, 0, 0⟩ }
    "r1" { id := "r1", ingredients := ["flour"] }
  have h2 := C8_scan_classification
    { pending := {"r1"}, last_updated := ⟨2024, 1, 1, 0, 0, 0, 0⟩ }
    "r2" ({ id := "r2" } : Recipe)
  have h3 := C8_scan_classification
    { pending := {"r1"}, last_updated := ⟨2024, 1, 1, 0, 0, 0, 0⟩ }
    "r3" ({ id := "r3" } : Recipe)
  have hg := h1.1 (by decide)
  have he := h2.2.2.1 (h2.2.1 rfl rfl)
  refine ⟨?_, ?_, h2.2.1 rfl rfl, ?_, ?_⟩
  · rw [hg.1]; decide
  · rw [hg.2.1]; decide
  · rw [he.1]; decide
  · rw [h3.2.2.2.1]; decide

/- ------------------------------------------------------------------ -/
/- C2: invariant preservation (corrected).                             -/
/- ------------------------------------------------------------------ -/

/-- C2 counterexample: from a state satisfying all the invariants
(`discovered = completed = {a}`), `mark_pending a` yields a state in which
`a` is both completed and pending — `mark_pending` does not remove the id
from completed, so it does not preserve the invariants, refuting the
claim that every mutator does. -/
theorem C2_mark_pending_breaks_invariants :
    (let s : ScrapeState :=
      { discovered := {"a"}, completed := {"a"},
        last_updated := ⟨2024, 1, 1, 0, 0, 0, 0⟩ }
     Invariants s ∧ ¬ Invariants (mark_pending s "a")) := by
  constructor
  · decide
  · decide

/-- C2 as amended: `mark_discovered` preserves the invariants
unconditionally; `mark_completed` and `mark_failed` preserve the two
disjointness invariants unconditionally and all invariants when the id is
already discovered; `mark_pending` preserves the invariants only when the
id is discovered and in neither completed nor failed; a scan step
preserves them unconditionally for a complete parsed record, for an
incomplete record only when the id is in neither completed nor failed,
and for a corrupt file only when the id is not pending; and under every
one of these operations `discovered` never shrinks. -/
theorem C2_invariants_amended (s : ScrapeState) (rid : String)
    (hinv : Invariants s) :
    Invariants (mark_discovered s rid) ∧
    ((∀ x ∈ (mark_completed s rid).completed,
        x ∉ (mark_completed s rid).pending) ∧
      (∀ x ∈ (mark_completed s rid).failed,
        x ∉ (mark_completed s rid).pending)) ∧
    (rid ∈ s.discovered → Invariants (mark_completed s rid)) ∧
    ((∀ x ∈ (mark_failed s rid).completed,
        x ∉ (mark_failed s rid).pending) ∧
      (∀ x ∈ (mark_failed s rid).failed,
        x ∉ (mark_failed s rid).pending)) ∧
    (rid ∈ s.discovered → Invariants (mark_failed s rid)) ∧
    (rid ∈ s.discovered → rid ∉ s.completed → rid ∉ s.failed →
      Invariants (mark_pending s rid)) ∧
    (∀ r : Recipe, r.is_complete = true →
      Invariants (scanStep s rid (some r))) ∧
    (∀ r : Recipe, rid ∉ s.completed → rid ∉ s.failed →
      Invariants (scanStep s rid (some r))) ∧
    (rid ∉ s.pending → Invariants (scanStep s rid none)) ∧
    (s.discovered ⊆ (mark_discovered s rid).discovered ∧
      s.discovered ⊆ (mark_pending s rid).discovered ∧
      s.discovered ⊆ (mark_completed s rid).discovered ∧
      s.discovered ⊆ (mark_failed s rid).discovered ∧
      ∀ content : Option Recipe,
        s.discovered ⊆ (scanStep s rid content).discovered) := by
  obtain ⟨hcp, hfp, hpd, hcd, hfd⟩ := hinv
  refine ⟨?_, ⟨?_, ?_⟩, ?_, ⟨?_, ?_⟩, ?_, ?_, ?_, ?_, ?_, ?_, ?_, ?_, ?_, ?_⟩
  · exact ⟨hcp, hfp,
      fun x hx => Finset.mem_insert_of_mem (hpd x hx),
      fun x hx => Finset.mem_insert_of_mem (hcd x hx),
      fun x hx => Finset.mem_insert_of_mem (hfd x hx)⟩
  · intro x hx hp
    simp only [mark_completed, Finset.mem_insert, Finset.mem_erase] at hx hp
    rcases hx with h | h
    · exact hp.1 h
    · exact hcp x h hp.2
  · intro x hx hp
    simp only [mark_completed, Finset.mem_erase] at hx hp
    exact hfp x hx.2 hp.2
  · intro hd
    refine ⟨?_, ?_, ?_, ?_, ?_⟩
    · intro x hx hp
      simp only [mark_completed, Finset.mem_insert, Finset.mem_erase]
        at hx hp
      rcases hx with h | h
      · exact hp.1 h
      · exact hcp x h hp.2
    · intro x hx hp
      simp only [mark_completed, Finset.mem_erase] at hx hp
      exact hfp x hx.2 hp.2
    · intro x hx
      simp only [mark_completed, Finset.mem_erase] at hx
      exact hpd x hx.2
    · intro x hx
      simp only [mark_completed, Finset.mem_insert] at hx
      rcases hx with h | h
      · exact h ▸ hd
      · exact hcd x h
    · intro x hx
      simp only [mark_completed, Finset.mem_erase] at hx
      exact hfd x hx.2
  · intro x hx hp
    simp only [mark_failed, Finset.mem_erase] at hx hp
    exact hcp x hx hp.2
  · intro x hx hp
    simp only [mark_failed, Finset.mem_insert, Finset.mem_erase] at hx hp
    rcases hx with h | h
    · exact hp.1 h
    · exact hfp x h hp.2
  · intro hd
    refine ⟨?_, ?_, ?_, ?_, ?_⟩
    · intro x hx hp
      simp only [mark_failed, Finset.mem_erase] at hx hp
      exact hcp x hx hp.2
    · intro x hx hp
      simp only [mark_failed, Finset.mem_insert, Finset.mem_erase] at hx hp
      rcases hx with h | h
      · exact hp.1 h
      · exact hfp x h hp.2
    · intro x hx
      simp only [mark_failed, Finset.mem_erase] at hx
      exact hpd x hx.2
    · exact hcd
    · intro x hx
      simp only [mark_failed, Finset.mem_insert] at hx
      rcases hx with h | h
      · exact h ▸ hd
      · exact hfd x h
  · intro hd hc hf
    refine ⟨?_, ?_, ?_, ?_, ?_⟩
    · intro x hx
      simp only [mark_pending, Finset.mem_insert]
      rintro (h | h)
      · exact hc (h ▸ hx)
      · exact hcp x hx h
    · intro x hx
      simp only [mark_pending, Finset.mem_insert]
      rintro (h | h)
      · exact hf (h ▸ hx)
      · exact hfp x hx h
    · intro x hx
      simp only [mark_pending, Finset.mem_insert] at hx
      rcases hx with h | h
      · exact h ▸ hd
      · exact hpd x h
    · exact hcd
    · exact hfd
  · intro r hr
    simp only [scanStep, hr, if_pos]
    refine ⟨?_, ?_, ?_, ?_, ?_⟩
    · intro x hx hp
      simp only [Finset.mem_insert, Finset.mem_erase] at hx hp
      rcases hx with h | h
      · exact hp.1 h
      · exact hcp x h hp.2
    · intro x hx hp
      simp only [Finset.mem_erase] at hp
      exact hfp x hx hp.2
    · intro x hx
      simp only [Finset.mem_erase] at hx
      exact Finset.mem_insert_of_mem (hpd x hx.2)
    · intro x hx
      simp only [Finset.mem_insert] at hx ⊢
      rcases hx with h | h
      · exact Or.inl h
      · exact Or.inr (hcd x h)
    · intro x hx
      exact Finset.mem_insert_of_mem (hfd x hx)
  · intro r hc hf
    by_cases hr : r.is_complete = true
    · simp only [scanStep, hr, if_pos]
      refine ⟨?_, ?_, ?_, ?_, ?_⟩
      · intro x hx hp
        simp only [Finset.mem_insert, Finset.mem_erase] at hx hp
        rcases hx with h | h
        · exact hp.1 h
        · exact hcp x h hp.2
      · intro x hx hp
        simp only [Finset.mem_erase] at hp
        exact hfp x hx hp.2
      · intro x hx
        simp only [Finset.mem_erase] at hx
        exact Finset.mem_insert_of_mem (hpd x hx.2)
      · intro x hx
        simp only [Finset.mem_insert] at hx ⊢
        rcases hx with h | h
        · exact Or.inl h
        · exact Or.inr (hcd x h)
      · intro x hx
        exact Finset.mem_insert_of_mem (hfd x hx)
    · rw [Bool.not_eq_true] at hr
      simp only [scanStep, hr, Bool.false_eq_true, if_neg, not_false_iff]
      refine ⟨?_, ?_, ?_, ?_, ?_⟩
      · intro x hx
        simp only [Finset.mem_insert]
        rintro (h | h)
        · exact hc (h ▸ hx)
        · exact hcp x hx h
      · intro x hx
        simp only [Finset.mem_insert]
        rintro (h | h)
        · exact hf (h ▸ hx)
        · exact hfp x hx h
      · intro x hx
        simp only [Finset.mem_insert] at hx ⊢
        rcases hx with h | h
        · exact Or.inl h
        · exact Or.inr (hpd x h)
      · intro x hx
        exact Finset.mem_insert_of_mem (hcd x hx)
      · intro x hx
        exact Finset.mem_insert_of_mem (hfd x hx)
  · intro hp
    refine ⟨?_, ?_, ?_, ?_, ?_⟩
    · intro x hx
      simp only [scanStep, Finset.mem_insert] at hx ⊢
      rcases hx with h | h
      · exact h ▸ hp
      · exact hcp x h
    · intro x hx
      exact hfp x hx
    · intro x hx
      exact Finset.mem_insert_of_mem (hpd x hx)
    · intro x hx
      simp only [scanStep, Finset.mem_insert] at hx ⊢
      rcases hx with h | h
      · exact Or.inl h
      · exact Or.inr (hcd x h)
    · intro x hx
      exact Finset.mem_insert_of_mem (hfd x hx)
  · exact Finset.subset_insert rid s.discovered
  · exact fun x hx => hx
  · exact fun x hx => hx
  · exact fun x hx => hx
  · intro content
    cases content with
    | some r =>
      by_cases hr : r.is_complete = true
      · simp only [scanStep, hr, if_pos]
        exact Finset.subset_insert rid s.discovered
      · rw [Bool.not_eq_true] at hr
        simp only [scanStep, hr, Bool.false_eq_true, if_neg, not_false_iff]
        exact Finset.subset_insert rid s.discovered
    | none => exact Finset.subset_insert rid s.discovered

/-- C2 witness: the amended preservation properties applied at a concrete
invariant-satisfying state. -/
theorem C2_invariants_amended_witness :
    (let s : ScrapeState :=
      { discovered := {"a", "b"}, completed := {"a"},
        last_updated := ⟨2024, 1, 1, 0, 0, 0, 0⟩ }
     Invariants (mark_discovered s "c") ∧
       Invariants (mark_completed s "b") ∧
       Invariants (mark_pending s "b") ∧
       Invariants (scanStep s "b" none)) := by
  have h := C2_invariants_amended
    { discovered := {"a", "b"}, completed := {"a"},
      last_updated := ⟨2024, 1, 1, 0, 0, 0, 0⟩ }
    "b" (by decide)
  have h2 := C2_invariants_amended
    { discovered := {"a", "b"}, completed := {"a"},
      last_updated := ⟨2024, 1, 1, 0, 0, 0, 0⟩ }
    "c" (by decide)
  exact ⟨h2.1, h.2.2.1 (by decide),
    h.2.2.2.2.2.1 (by decide) (by decide) (by decide),
    h.2.2.2.2.2.2.2.2.1 (by decide)⟩

/- ------------------------------------------------------------------ -/
/- C3: download retry loop and failure accounting.                     -/
/- ------------------------------------------------------------------ -/

/-- Outcome of one fetch+extract attempt in
`RecipeScraper._download_recipe`: the body either raises (any exception
from navigation/parsing) or produces a parsed record. -/
inductive AttemptOutcome where
  | raised
  | parsed (r : Recipe)

/-- An attempt the loop retries after: either the attempt raised, or it
parsed a record without meaningful content. -/
def retryable : AttemptOutcome → Prop
  | .raised => True
  | .parsed r => r.is_complete = false

/-- Result of `RecipeScraper._download_recipe`: the returned boolean, the
record saved to disk (if any), the number of attempts consumed, and
whether the empty-content warning was logged. -/
structure DownloadResult where
  success : Bool
  saved : Option Recipe
  attemptsUsed : Nat
  warnedEmpty : Bool

/-- The `for attempt in range(max_retries + 1)` loop of
`RecipeScraper._download_recipe`, from attempt index `i`:
an incomplete parse with retries left continues; otherwise the record is
saved (warning when incomplete) and True is returned; an exception with
retries left continues, and on the final attempt returns False. -/
def downloadFrom (max_retries : Nat) (attempts : Nat → AttemptOutcome)
    (i : Nat) : DownloadResult :=
  if _h : i ≤ max_retries then
    match attempts i with
    | .parsed r =>
      if r.is_complete = false ∧ i < max_retries then
        downloadFrom max_retries attempts (i + 1)
      else
        { success := true, saved := some r, attemptsUsed := i + 1,
          warnedEmpty := !r.is_complete }
    | .raised =>
      if i < max_retries then
        downloadFrom max_retries attempts (i + 1)
      else
        { success := false, saved := none, attemptsUsed := i + 1,
          warnedEmpty := false }
  else
    { success := false, saved := none, attemptsUsed := i,
      warnedEmpty := false }
termination_by max_retries + 1 - i

/-- `RecipeScraper._download_recipe` as a whole. -/
def download_recipe (max_retries : Nat) (attempts : Nat → AttemptOutcome) :
    DownloadResult :=
  downloadFrom max_retries attempts 0

/-- The per-identifier accounting of `RecipeScraper._download_worker`:
success increments `downloaded` and marks completed, failure increments
`failures` and marks failed. -/
def workerStep (s : ScrapeState) (downloaded failures : Nat) (rid : String)
    (success : Bool) : ScrapeState × Nat × Nat :=
  if success then (mark_completed s rid, downloaded + 1, failures)
  else (mark_failed s rid, downloaded, failures + 1)

theorem downloadFrom_attempts_le (max_retries : Nat)
    (attempts : Nat → AttemptOutcome) :
    ∀ k i, max_retries + 1 - i ≤ k → i ≤ max_retries →
      (downloadFrom max_retries attempts i).attemptsUsed ≤ max_retries + 1 := by
  intro k
  induction k with
  | zero => intro i hk hi; omega
  | succ n ih =>
    intro i hk hi
    rw [downloadFrom]
    rw [dif_pos hi]
    cases attempts i with
    | parsed r =>
      dsimp only
      by_cases hc : r.is_complete = false ∧ i < max_retries
      · rw [if_pos hc]
        exact ih (i + 1) (by omega) (by omega)
      · rw [if_neg hc]
        simpa using hi
    | raised =>
      dsimp only
      by_cases hc : i < max_retries
      · rw [if_pos hc]
        exact ih (i + 1) (by omega) (by omega)
      · rw [if_neg hc]
        simpa using hi

theorem downloadFrom_failure (max_retries : Nat)
    (attempts : Nat → AttemptOutcome) :
    ∀ k i, max_retries + 1 - i ≤ k → i ≤ max_retries →
      (downloadFrom max_retries attempts i).success = false →
      (downloadFrom max_retries attempts i).attemptsUsed = max_retries + 1 ∧
        attempts max_retries = .raised := by
  intro k
  induction k with
  | zero => intro i hk hi; omega
  | succ n ih =>
    intro i hk hi
    rw [downloadFrom, dif_pos hi]
    cases hat : attempts i with
    | parsed r =>
      dsimp only
      by_cases hc : r.is_complete = false ∧ i < max_retries
      · rw [if_pos hc]
        exact ih (i + 1) (by omega) (by omega)
      · rw [if_neg hc]
        intro hfalse
        exact absurd hfalse (by simp)
    | raised =>
      dsimp only
      by_cases hc : i < max_retries
      · rw [if_pos hc]
        exact ih (i + 1) (by omega) (by omega)
      · rw [if_neg hc]
        intro _
        have : i = max_retries := by omega
        subst this
        exact ⟨rfl, hat⟩

theorem downloadFrom_exhausted_incomplete (max_retries : Nat)
    (attempts : Nat → AttemptOutcome) (r : Recipe)
    (hr : attempts max_retries = .parsed r)
    (hinc : r.is_complete = false) :
    ∀ k i, max_retries + 1 - i ≤ k → i ≤ max_retries →
      (∀ j, i ≤ j → j < max_retries → retryable (attempts j)) →
      downloadFrom max_retries attempts i =
        { success := true, saved := some r,
          attemptsUsed := max_retries + 1, warnedEmpty := true } := by
  intro k
  induction k with
  | zero => intro i hk hi; omega
  | succ n ih =>
    intro i hk hi hretry
    rw [downloadFrom, dif_pos hi]
    by_cases hlast : i = max_retries
    · subst hlast
      rw [hr]
      dsimp only
      have hnc : ¬ (r.is_complete = false ∧ i < i) :=
        fun h => lt_irrefl i h.2
      rw [if_neg hnc, hinc]
      rfl
    · have hilt : i < max_retries := by omega
      have hret := hretry i (le_refl i) hilt
      cases hat : attempts i with
      | parsed r' =>
        dsimp only
        rw [hat] at hret
        rw [if_pos ⟨hret, hilt⟩]
        exact ih (i + 1) (by omega) (by omega)
          (fun j hj hjl => hretry j (by omega) hjl)
      | raised =>
        dsimp only
        rw [if_pos hilt]
        exact ih (i + 1) (by omega) (by omega)
          (fun j hj hjl => hretry j (by omega) hjl)

/-- C3: the download routine makes at most `max_retries + 1` attempts; a
run in which every non-final attempt is retryable (raised or incomplete)
and the final attempt parses an incomplete record still saves the record,
returns success with the empty-content warning, and the worker does not
count it as a failure; the worker's failures counter grows only when the
routine returned false, which happens only when the final attempt itself
raised. -/
theorem C3_download_retry (max_retries : Nat)
    (attempts : Nat → AttemptOutcome) :
    (download_recipe max_retries attempts).attemptsUsed ≤ max_retries + 1 ∧
    ((download_recipe max_retries attempts).success = false →
      (download_recipe max_retries attempts).attemptsUsed =
          max_retries + 1 ∧
        attempts max_retries = .raised) ∧
    (∀ r : Recipe, attempts max_retries = .parsed r →
      r.is_complete = false →
      (∀ j, j < max_retries → retryable (attempts j)) →
      download_recipe max_retries attempts =
        { success := true, saved := some r,
          attemptsUsed := max_retries + 1, warnedEmpty := true }) ∧
    (∀ s rid downloaded failures,
      (workerStep s downloaded failures rid
          (download_recipe max_retries attempts).success).2.2 =
        failures +
          (if (download_recipe max_retries attempts).success then 0
           else 1)) := by
  refine ⟨?_, ?_, ?_, ?_⟩
  · exact downloadFrom_attempts_le max_retries attempts
      (max_retries + 1) 0 (by omega) (by omega)
  · exact downloadFrom_failure max_retries attempts
      (max_retries + 1) 0 (by omega) (by omega)
  · intro r hr hinc hretry
    exact downloadFrom_exhausted_incomplete max_retries attempts r hr hinc
      (max_retries + 1) 0 (by omega) (by omega)
      (fun j _ hjl => hretry j hjl)
  · intro s rid downloaded failures
    by_cases h : (download_recipe max_retries attempts).success
    · rw [h]; simp [workerStep]
    · rw [Bool.not_eq_true] at h
      rw [h]; simp [workerStep]

/-- C3 witness: two retryable attempts followed by a final incomplete
parse, with `max_retries = 2`: the record is saved, the call succeeds and
no failure is counted. -/
theorem C3_download_retry_witness :
    (let emptyRec : Recipe := { id := "r1" }
     let att : Nat → AttemptOutcome := fun i =>
       if i = 0 then .raised else .parsed emptyRec
     (download_recipe 2 att).success = true ∧
       (download_recipe 2 att).saved = some emptyRec ∧
       (download_recipe 2 att).attemptsUsed = 3 ∧
       (download_recipe 2 att).warnedEmpty = true) := by
  have h := (C3_download_retry 2 (fun i =>
    if i = 0 then .raised else .parsed { id := "r1" })).2.2.1
    { id := "r1" } rfl rfl (by
      intro j hj
      interval_cases j
      · exact trivial
      · exact rfl)
  refine ⟨?_, ?_, ?_, ?_⟩ <;> rw [h]

/- ------------------------------------------------------------------ -/
/- C10: frame property of the explicit-identifier path.                -/
/- ------------------------------------------------------------------ -/

/-- The serialized recovery file: the JSON object `save_state` writes
(four sorted arrays of identifiers and an ISO timestamp string). -/
structure StateDict where
  discovered : List String
  pending : List String
  completed : List String
  failed : List String
  last_updated : String
  deriving DecidableEq

/-- The parts of the world `RecipeScraper` can touch: the in-memory crawl
state, the recovery file on disk, the record files on disk (an
association list keyed by identifier), and the run counters. -/
structure World where
  crawl : ScrapeState
  state_file : Option StateDict
  recipe_files : List (String × Recipe)
  downloaded : Nat
  skipped : Nat
  failures : Nat

/-- `StateManager.recipe_exists`: is there a record file for `rid`? -/
def World.recipe_exists (w : World) (rid : String) : Bool :=
  (w.recipe_files.lookup rid).isSome

/-- `StateManager.save_recipe`: write/overwrite the record file. -/
def World.save_recipe (w : World) (r : Recipe) : World :=
  { w with recipe_files :=
      (r.id, r) :: w.recipe_files.eraseP (fun p => p.1 == r.id) }

/-- One iteration of the loop in `RecipeScraper._scrape_specific_recipes`
for a (normalized) identifier: skip it when `should_download` says no,
otherwise run `_download_recipe` (whose fetch attempts are supplied by
`attempts rid`), persisting a record exactly when the routine saved one,
and bump the counters. -/
def scrapeOne (mode : RunMode) (max_retries : Nat)
    (attempts : String → Nat → AttemptOutcome) (w : World) (rid : String) :
    World :=
  if should_download mode w.crawl w.recipe_exists rid = false then
    { w with skipped := w.skipped + 1 }
  else
    let res := download_recipe max_retries (attempts rid)
    let w1 := match res.saved with
              | some r => w.save_recipe r
              | none => w
    if res.success then { w1 with downloaded := w1.downloaded + 1 }
    else { w1 with failures := w1.failures + 1 }

/-- `RecipeScraper._scrape_specific_recipes`: normalize the configured
identifier list, drop empty results, and download sequentially. -/
def scrape_specific (mode : RunMode) (max_retries : Nat)
    (recipe_ids : List String)
    (attempts : String → Nat → AttemptOutcome) (w : World) : World :=
  let ids := (recipe_ids.map normalize_id).filterMap (fun x => x)
  ids.foldl (fun acc rid => scrapeOne mode max_retries attempts acc rid) w

theorem scrapeOne_frame (mode : RunMode) (max_retries : Nat)
    (attempts : String → Nat → AttemptOutcome) (w : World) (rid : String) :
    (scrapeOne mode max_retries attempts w rid).crawl = w.crawl ∧
    (scrapeOne mode max_retries attempts w rid).state_file = w.state_file := by
  unfold scrapeOne
  by_cases h : should_download mode w.crawl w.recipe_exists rid = false
  · rw [if_pos h]; exact ⟨rfl, rfl⟩
  · rw [if_neg h]
    dsimp only
    cases (download_recipe max_retries (attempts rid)).saved with
    | some r =>
      by_cases hs : (download_recipe max_retries (attempts rid)).success
      · rw [if_pos hs]; exact ⟨rfl, rfl⟩
      · rw [if_neg hs]; exact ⟨rfl, rfl⟩
    | none =>
      by_cases hs : (download_recipe max_retries (attempts rid)).success
      · rw [if_pos hs]; exact ⟨rfl, rfl⟩
      · rw [if_neg hs]; exact ⟨rfl, rfl⟩

theorem foldl_scrape_frame (mode : RunMode) (max_retries : Nat)
    (attempts : String → Nat → AttemptOutcome) :
    ∀ (ids : List String) (w : World),
      (ids.foldl
          (fun acc rid => scrapeOne mode max_retries attempts acc rid)
          w).crawl = w.crawl ∧
      (ids.foldl
          (fun acc rid => scrapeOne mode max_retries attempts acc rid)
          w).state_file = w.state_file := by
  intro ids
  induction ids with
  | nil => intro w; exact ⟨rfl, rfl⟩
  | cons a as ih =>
    intro w
    rw [List.foldl_cons]
    have hstep := scrapeOne_frame mode max_retries attempts w a
    have hrest := ih (scrapeOne mode max_retries attempts w a)
    exact ⟨hrest.1.trans hstep.1, hrest.2.trans hstep.2⟩

/-- C10: with an explicit identifier list configured, the sequential
specific-recipes path leaves the four crawl-state sets and the recovery
file on disk exactly as they were, whatever the download outcomes. -/
theorem C10_specific_path_frame (mode : RunMode) (max_retries : Nat)
    (recipe_ids : List String)
    (attempts : String → Nat → AttemptOutcome) (w : World)
    (_hconfigured : recipe_ids ≠ []) :
    (scrape_specific mode max_retries recipe_ids attempts w).crawl =
        w.crawl ∧
    (scrape_specific mode max_retries recipe_ids attempts w).state_file =
        w.state_file := by
  unfold scrape_specific
  exact foldl_scrape_frame mode max_retries attempts _ w

/-- C10 witness: a two-identifier run (one succeeding, one raising) over
a world with a recovery file present leaves crawl state and recovery file
untouched. -/
theorem C10_specific_path_frame_witness :
    (let w : World :=
      { crawl := { pending := {"r9"},
                   last_updated := ⟨2024, 1, 1, 0, 0, 0, 0⟩ },
        state_file := some ⟨[], ["r9"], [], [], "2024-01-01T00:00:00"⟩,
        recipe_files := [], downloaded := 0, skipped := 0, failures := 0 }
     let att : String → Nat → AttemptOutcome := fun rid _ =>
       if rid = "r1" then .parsed { id := "r1", steps := ["mix"] }
       else .raised
     (scrape_specific RunMode.SKIP_EXISTING 2 ["1", "r2"] att w).crawl =
         w.crawl ∧
       (scrape_specific RunMode.SKIP_EXISTING 2
           ["1", "r2"] att w).state_file = w.state_file) := by
  exact C10_specific_path_frame RunMode.SKIP_EXISTING 2 ["1", "r2"] _ _
    (by decide)

/- ------------------------------------------------------------------ -/
/- Discovery client (`algolia.py`): BFS prefix subdivision.            -/
/- ------------------------------------------------------------------ -/

/-- `AlgoliaClient.SEARCH_CHARS`. -/
def SEARCH_CHARS : List Char :=
  "ABCDEFGHIJKLMNOPQRSTUVWXYZÄÖÜabcdefghijklmnopqrstuvwxyzäöü0123456789".data

/-- `AlgoliaClient.MAX_DEPTH`. -/
def MAX_DEPTH : Nat := 3

/-- `AlgoliaClient.HITS_PER_PAGE`. -/
def HITS_PER_PAGE : Nat := 1000

/-- The subdivision step of `AlgoliaClient.discover_all`: the queue
extensions appended after querying a path `p` that returned `ids` hits
and a reported total of `total`. -/
def subdivisions (p : List Char) (ids : List String) (total : Nat) :
    List (List Char) :=
  if HITS_PER_PAGE ≤ ids.length ∧ HITS_PER_PAGE < total then
    if p.length < MAX_DEPTH then SEARCH_CHARS.map (fun c => p ++ [c])
    else []
  else []

/-- Number of BFS nodes in the subtree below a path of length `d`
(`subtreeWeightAux k` counting a chain of `k` remaining levels); used as
the termination measure for the traversal. -/
def subtreeWeightAux : Nat → Nat
  | 0 => 1
  | n + 1 => 1 + SEARCH_CHARS.length * subtreeWeightAux n

def subtreeWeight (d : Nat) : Nat :=
  subtreeWeightAux (MAX_DEPTH - d)

def queueMeasure (queue : List (List Char)) : Nat :=
  (queue.map (fun p => subtreeWeight p.length)).sum

theorem subtreeWeight_pos (d : Nat) : 0 < subtreeWeight d := by
  unfold subtreeWeight
  cases MAX_DEPTH - d with
  | zero => exact Nat.one_pos
  | succ n =>
    show 0 < 1 + SEARCH_CHARS.length * subtreeWeightAux n
    omega

theorem subtreeWeight_succ (d : Nat) (h : d < MAX_DEPTH) :
    subtreeWeight d = 1 + SEARCH_CHARS.length * subtreeWeight (d + 1) := by
  unfold subtreeWeight
  have : MAX_DEPTH - d = (MAX_DEPTH - (d + 1)) + 1 := by omega
  rw [this]
  rfl

theorem queueMeasure_cons (p : List Char) (rest : List (List Char)) :
    queueMeasure (p :: rest) = subtreeWeight p.length + queueMeasure rest := by
  simp [queueMeasure]

theorem queueMeasure_append (l1 l2 : List (List Char)) :
    queueMeasure (l1 ++ l2) = queueMeasure l1 + queueMeasure l2 := by
  simp [queueMeasure]

theorem sum_map_const {α : Type} (l : List α) (k : Nat) :
    (l.map (fun _ => k)).sum = l.length * k := by
  induction l with
  | nil => simp
  | cons a as ih => simp [ih, Nat.succ_mul, Nat.add_comm]

theorem queueMeasure_subdivisions (p : List Char) (ids : List String)
    (total : Nat) :
    queueMeasure (subdivisions p ids total) < subtreeWeight p.length := by
  unfold subdivisions
  by_cases h1 : HITS_PER_PAGE ≤ ids.length ∧ HITS_PER_PAGE < total
  · rw [if_pos h1]
    by_cases h2 : p.length < MAX_DEPTH
    · rw [if_pos h2]
      have hm : queueMeasure (SEARCH_CHARS.map (fun c => p ++ [c])) =
          SEARCH_CHARS.length * subtreeWeight (p.length + 1) := by
        unfold queueMeasure
        rw [List.map_map]
        have : ((fun q => subtreeWeight q.length) ∘ fun c => p ++ [c]) =
            fun _ : Char => subtreeWeight (p.length + 1) := by
          funext c
          simp
        rw [this, sum_map_const]
      rw [hm, subtreeWeight_succ p.length h2]
      omega
    · rw [if_neg h2]
      exact subtreeWeight_pos _
  · rw [if_neg h1]
    exact subtreeWeight_pos _

theorem queueMeasure_step (p : List Char) (rest : List (List Char))
    (ids : List String) (total : Nat) :
    queueMeasure (rest ++ subdivisions p ids total) <
      queueMeasure (p :: rest) := by
  rw [queueMeasure_append, queueMeasure_cons]
  have := queueMeasure_subdivisions p ids total
  omega

/-- The dedup-and-yield loop inside `AlgoliaClient.discover_all`:
`for rid in ids: if rid not in seen_ids: seen_ids.add(rid); yield rid`.
Returns the yielded identifiers in order and the final seen-set. -/
def emitNew (seen : Finset String) : List String → List String × Finset String
  | [] => ([], seen)
  | r :: rs =>
    if r ∈ seen then emitNew seen rs
    else
      let res := emitNew (insert r seen) rs
      (r :: res.1, res.2)

/-- The `while prefix_queue` loop of `AlgoliaClient.discover_all`, for an
arbitrary query function `q` (path ↦ returned id hits and reported
`nbHits` total).  Returns the queried paths in order and the yielded
identifiers in order. -/
def discoverGo (q : List Char → List String × Nat) :
    List (List Char) → Finset String → List (List Char) × List String
  | [], _ => ([], [])
  | p :: rest, seen =>
    let qr := q p
    let em := emitNew seen qr.1
    let res := discoverGo q (rest ++ subdivisions p qr.1 qr.2) em.2
    (p :: res.1, em.1 ++ res.2)
termination_by queue _ => queueMeasure queue
decreasing_by exact queueMeasure_step p rest (q p).1 (q p).2

/-- `AlgoliaClient.discover_all`: the queue is seeded with every single
character of the alphabet and the seen-set starts empty. -/
def discover_all (q : List Char → List String × Nat) :
    List (List Char) × List String :=
  discoverGo q (SEARCH_CHARS.map (fun c => [c])) ∅

/- ------------------------------------------------------------------ -/
/- C5: the subdivision condition.                                      -/
/- ------------------------------------------------------------------ -/

/-- C5: an extension `p ++ [c]` is enqueued iff the query returned at
least the page size (1000) of hits AND the reported total exceeds the
page size AND the extended length stays within the maximum depth 3; and
in that case exactly one extension per alphabet character is enqueued
(the appended list is exactly the map over the alphabet, with each
extension occurring once). -/
theorem C5_subdivision_condition (p : List Char) (ids : List String)
    (total : Nat) :
    (∀ c ∈ SEARCH_CHARS,
      ((p ++ [c]) ∈ subdivisions p ids total ↔
        (1000 ≤ ids.length ∧ 1000 < total ∧ p.length + 1 ≤ 3))) ∧
    ((1000 ≤ ids.length ∧ 1000 < total ∧ p.length + 1 ≤ 3) →
      subdivisions p ids total = SEARCH_CHARS.map (fun c => p ++ [c]) ∧
      (subdivisions p ids total).Nodup ∧
      ∀ c ∈ SEARCH_CHARS, (p ++ [c]) ∈ subdivisions p ids total) := by
  have hinj : ∀ c1 c2 : Char, p ++ [c1] = p ++ [c2] → c1 = c2 := by
    intro c1 c2 h
    have := List.append_cancel_left h
    simpa using this
  have hnodup : (SEARCH_CHARS.map (fun c => p ++ [c])).Nodup := by
    refine List.Nodup.map_on ?_ (by decide)
    intro c1 _ c2 _ h
    exact hinj c1 c2 h
  constructor
  · intro c hc
    constructor
    · intro hmem
      unfold subdivisions at hmem
      by_cases h1 : HITS_PER_PAGE ≤ ids.length ∧ HITS_PER_PAGE < total
      · rw [if_pos h1] at hmem
        by_cases h2 : p.length < MAX_DEPTH
        · refine ⟨h1.1, h1.2, ?_⟩
          simp only [MAX_DEPTH] at h2
          omega
        · rw [if_neg h2] at hmem
          exact absurd hmem (List.not_mem_nil _)
      · rw [if_neg h1] at hmem
        exact absurd hmem (List.not_mem_nil _)
    · rintro ⟨h1, h2, h3⟩
      unfold subdivisions
      rw [if_pos ⟨h1, h2⟩, if_pos (by simp only [MAX_DEPTH]; omega)]
      exact List.mem_map_of_mem _ hc
  · rintro ⟨h1, h2, h3⟩
    have heq : subdivisions p ids total =
        SEARCH_CHARS.map (fun c => p ++ [c]) := by
      unfold subdivisions
      rw [if_pos ⟨h1, h2⟩, if_pos (by simp only [MAX_DEPTH]; omega)]
    refine ⟨heq, ?_, ?_⟩
    · rw [heq]; exact hnodup
    · intro c hc
      rw [heq]
      exact List.mem_map_of_mem _ hc

/-- C5 witness: the spec scenario — path "a" (depth 1), 1000 returned
hits, reported total 2500: every single-character extension is enqueued
exactly once. -/
theorem C5_subdivision_condition_witness :
    (let ids := List.replicate 1000 "x"
     (['a', 'b'] : List Char) ∈ subdivisions ['a'] ids 2500 ∧
       subdivisions ['a'] ids 2500 =
         SEARCH_CHARS.map (fun c => ['a'] ++ [c]) ∧
       (subdivisions ['a'] ids 2500).Nodup) := by
  have h := C5_subdivision_condition ['a'] (List.replicate 1000 "x") 2500
  have hlen : (List.replicate 1000 "x").length = 1000 :=
    List.length_replicate 1000 "x"
  have hcond : 1000 ≤ (List.replicate 1000 "x").length ∧ 1000 < 2500 ∧
      (['a'] : List Char).length + 1 ≤ 3 := by
    rw [hlen]
    exact ⟨le_refl 1000, by omega, by decide⟩
  exact ⟨(h.1 'b' (by decide)).mpr hcond, (h.2 hcond).1, (h.2 hcond).2.1⟩

/- ------------------------------------------------------------------ -/
/- C6: termination, no revisits, query-count bound.                    -/
/- ------------------------------------------------------------------ -/

theorem discoverGo_length_le (q : List Char → List String × Nat) :
    ∀ k (queue : List (List Char)) (seen : Finset String),
      queueMeasure queue ≤ k →
      (discoverGo q queue seen).1.length ≤ queueMeasure queue := by
  intro k
  induction k with
  | zero =>
    intro queue seen hk
    cases queue with
    | nil => rw [discoverGo]; simp
    | cons p rest =>
      exfalso
      have h1 := subtreeWeight_pos p.length
      rw [queueMeasure_cons] at hk
      omega
  | succ n ih =>
    intro queue seen hk
    cases queue with
    | nil => rw [discoverGo]; simp
    | cons p rest =>
      rw [discoverGo]
      dsimp only
      have hstep := queueMeasure_step p rest (q p).1 (q p).2
      have hrec := ih (rest ++ subdivisions p (q p).1 (q p).2)
        (emitNew seen (q p).1).2 (by omega)
      simp only [List.length_cons]
      omega

theorem SEARCH_CHARS_nodup : SEARCH_CHARS.Nodup := by decide

theorem subdivisions_mem {p : List Char} {ids : List String} {total : Nat}
    {x : List Char} (h : x ∈ subdivisions p ids total) :
    ∃ c ∈ SEARCH_CHARS, x = p ++ [c] := by
  unfold subdivisions at h
  by_cases h1 : HITS_PER_PAGE ≤ ids.length ∧ HITS_PER_PAGE < total
  · rw [if_pos h1] at h
    by_cases h2 : p.length < MAX_DEPTH
    · rw [if_pos h2] at h
      obtain ⟨c, hc, hx⟩ := List.mem_map.mp h
      exact ⟨c, hc, hx.symm⟩
    · rw [if_neg h2] at h
      exact absurd h (List.not_mem_nil _)
  · rw [if_neg h1] at h
    exact absurd h (List.not_mem_nil _)

theorem subdivisions_nodup (p : List Char) (ids : List String) (total : Nat) :
    (subdivisions p ids total).Nodup := by
  unfold subdivisions
  by_cases h1 : HITS_PER_PAGE ≤ ids.length ∧ HITS_PER_PAGE < total
  · rw [if_pos h1]
    by_cases h2 : p.length < MAX_DEPTH
    · rw [if_pos h2]
      refine List.Nodup.map_on ?_ SEARCH_CHARS_nodup
      intro c1 _ c2 _ h
      have := List.append_cancel_left h
      simpa using this
    · rw [if_neg h2]; exact List.nodup_nil
  · rw [if_neg h1]; exact List.nodup_nil

theorem discoverGo_nodup (q : List Char → List String × Nat) :
    ∀ k (queue : List (List Char)) (seen : Finset String)
      (visited : List (List Char)),
      queueMeasure queue ≤ k →
      (visited ++ queue).Nodup →
      (∀ r ∈ visited ++ queue, r ≠ []) →
      (∀ r ∈ visited ++ queue, 2 ≤ r.length → r.dropLast ∈ visited) →
      (discoverGo q queue seen).1.Nodup ∧
        ∀ r ∈ (discoverGo q queue seen).1, r ∉ visited := by
  intro k
  induction k with
  | zero =>
    intro queue seen visited hk _ _ _
    cases queue with
    | nil => rw [discoverGo]; exact ⟨List.nodup_nil, by simp⟩
    | cons p rest =>
      exfalso
      have h1 := subtreeWeight_pos p.length
      rw [queueMeasure_cons] at hk
      omega
  | succ n ih =>
    intro queue seen visited hk hnd hne hpar
    cases queue with
    | nil => rw [discoverGo]; exact ⟨List.nodup_nil, by simp⟩
    | cons p rest =>
      rw [discoverGo]
      dsimp only
      have hstep := queueMeasure_step p rest (q p).1 (q p).2
      have hpne : p ≠ [] := hne p (by simp)
      have hplen : 1 ≤ p.length := by
        cases hp : p with
        | nil => exact absurd hp hpne
        | cons a as => simp
      -- decompose the Nodup hypothesis around p
      have hmid : (p :: (visited ++ rest)).Nodup :=
        List.nodup_middle.mp hnd
      have hpvr : p ∉ visited ++ rest := (List.nodup_cons.mp hmid).1
      have hvr : (visited ++ rest).Nodup := (List.nodup_cons.mp hmid).2
      have hpvis : p ∉ visited := fun h => hpvr (List.mem_append_left _ h)
      have hprest : p ∉ rest := fun h => hpvr (List.mem_append_right _ h)
      -- children are fresh
      have hchfresh : ∀ x ∈ subdivisions p (q p).1 (q p).2,
          x ∉ visited ++ p :: rest := by
        intro x hx hmem
        obtain ⟨c, _, hxe⟩ := subdivisions_mem hx
        have hxlen : 2 ≤ x.length := by
          rw [hxe]; simp; omega
        have := hpar x hmem hxlen
        rw [hxe, List.dropLast_concat] at this
        exact hpvis this
      have hchnp : ∀ x ∈ subdivisions p (q p).1 (q p).2, x ≠ p := by
        intro x hx
        obtain ⟨c, _, hxe⟩ := subdivisions_mem hx
        intro hxp
        rw [hxp] at hxe
        have : p.length = p.length + 1 := by
          conv_lhs => rw [hxe]
          simp
        omega
      -- invariant for the recursive call
      have hnd2 : ((visited ++ [p]) ++
          (rest ++ subdivisions p (q p).1 (q p).2)).Nodup := by
        have hshape : (visited ++ [p]) ++
            (rest ++ subdivisions p (q p).1 (q p).2) =
            visited ++ p :: (rest ++ subdivisions p (q p).1 (q p).2) := by
          simp
        rw [hshape, List.nodup_middle, List.nodup_cons]
        constructor
        · intro hmem
          rcases List.mem_append.mp hmem with h | h
          · exact hpvis h
          · rcases List.mem_append.mp h with h2 | h2
            · exact hprest h2
            · exact hchnp p h2 rfl
        · rw [← List.append_assoc, List.nodup_append]
          refine ⟨hvr, subdivisions_nodup _ _ _, ?_⟩
          intro x hx hx2
          have : x ∈ visited ++ p :: rest := by
            rcases List.mem_append.mp hx with h | h
            · exact List.mem_append_left _ h
            · exact List.mem_append_right _ (List.mem_cons_of_mem _ h)
          exact hchfresh x hx2 this
      have hne2 : ∀ r ∈ (visited ++ [p]) ++
          (rest ++ subdivisions p (q p).1 (q p).2), r ≠ [] := by
        intro r hr
        rcases List.mem_append.mp hr with h | h
        · rcases List.mem_append.mp h with h2 | h2
          · exact hne r (List.mem_append_left _ h2)
          · rw [List.mem_singleton.mp h2]; exact hpne
        · rcases List.mem_append.mp h with h2 | h2
          · exact hne r
              (List.mem_append_right _ (List.mem_cons_of_mem _ h2))
          · obtain ⟨c, _, hxe⟩ := subdivisions_mem h2
            rw [hxe]
            simp
      have hpar2 : ∀ r ∈ (visited ++ [p]) ++
          (rest ++ subdivisions p (q p).1 (q p).2), 2 ≤ r.length →
          r.dropLast ∈ visited ++ [p] := by
        intro r hr hlen
        rcases List.mem_append.mp hr with h | h
        · rcases List.mem_append.mp h with h2 | h2
          · exact List.mem_append_left _
              (hpar r (List.mem_append_left _ h2) hlen)
          · have hrp := List.mem_singleton.mp h2
            subst hrp
            exact List.mem_append_left _
              (hpar r (List.mem_append_right _ (List.mem_cons_self _ _))
                hlen)
        · rcases List.mem_append.mp h with h2 | h2
          · exact List.mem_append_left _ (hpar r
              (List.mem_append_right _ (List.mem_cons_of_mem _ h2)) hlen)
          · obtain ⟨c, _, hxe⟩ := subdivisions_mem h2
            rw [hxe, List.dropLast_concat]
            exact List.mem_append_right _ (List.mem_singleton_self _)
      have hrec := ih (rest ++ subdivisions p (q p).1 (q p).2)
        (emitNew seen (q p).1).2 (visited ++ [p]) (by omega)
        hnd2 hne2 hpar2
      constructor
      · rw [List.nodup_cons]
        refine ⟨?_, hrec.1⟩
        intro hmem
        exact hrec.2 p hmem (List.mem_append_right _ (List.mem_singleton_self _))
      · intro r hr
        rcases List.mem_cons.mp hr with h | h
        · rw [h]; exact hpvis
        · intro hmem
          exact hrec.2 r h (List.mem_append_left _ hmem)

theorem initialQueueMeasure :
    queueMeasure (SEARCH_CHARS.map (fun c => [c])) =
      SEARCH_CHARS.length + SEARCH_CHARS.length ^ 2 +
        SEARCH_CHARS.length ^ 3 := by
  unfold queueMeasure
  rw [List.map_map]
  have h1 : ((fun p : List Char => subtreeWeight p.length) ∘
      fun c : Char => [c]) = fun _ : Char => subtreeWeight 1 := by
    funext c
    simp
  rw [h1, sum_map_const]
  have h2 : subtreeWeight 1 =
      1 + SEARCH_CHARS.length + SEARCH_CHARS.length * SEARCH_CHARS.length := by
    show subtreeWeightAux 2 = _
    show 1 + SEARCH_CHARS.length * (1 + SEARCH_CHARS.length * 1) = _
    ring
  rw [h2]
  ring

/-- C6: for every query function, the BFS discovery traversal (a total
function, hence terminating) queries each path at most once (the list of
queried paths has no duplicates) and issues at most
alphabet + alphabet^2 + alphabet^3 queries. -/
theorem C6_discovery_termination_bound (q : List Char → List String × Nat) :
    (discover_all q).1.Nodup ∧
    (discover_all q).1.length ≤
      SEARCH_CHARS.length + SEARCH_CHARS.length ^ 2 +
        SEARCH_CHARS.length ^ 3 := by
  unfold discover_all
  have hinit : ∀ r ∈ SEARCH_CHARS.map (fun c => [c]), ∃ c, r = [c] := by
    intro r hr
    obtain ⟨c, _, hce⟩ := List.mem_map.mp hr
    exact ⟨c, hce.symm⟩
  have hnodup0 : (([] : List (List Char)) ++
      SEARCH_CHARS.map (fun c => [c])).Nodup := by
    rw [List.nil_append]
    refine List.Nodup.map_on ?_ SEARCH_CHARS_nodup
    intro c1 _ c2 _ h
    simpa using h
  have hne0 : ∀ r ∈ ([] : List (List Char)) ++
      SEARCH_CHARS.map (fun c => [c]), r ≠ [] := by
    intro r hr
    rw [List.nil_append] at hr
    obtain ⟨c, hce⟩ := hinit r hr
    rw [hce]
    simp
  have hpar0 : ∀ r ∈ ([] : List (List Char)) ++
      SEARCH_CHARS.map (fun c => [c]), 2 ≤ r.length →
      r.dropLast ∈ ([] : List (List Char)) := by
    intro r hr hlen
    rw [List.nil_append] at hr
    obtain ⟨c, hce⟩ := hinit r hr
    rw [hce] at hlen
    simp at hlen
  have hnd := discoverGo_nodup q
    (queueMeasure (SEARCH_CHARS.map (fun c => [c])))
    (SEARCH_CHARS.map (fun c => [c])) ∅ [] (le_refl _)
    hnodup0 hne0 hpar0
  have hlen := discoverGo_length_le q
    (queueMeasure (SEARCH_CHARS.map (fun c => [c])))
    (SEARCH_CHARS.map (fun c => [c])) ∅ (le_refl _)
  rw [initialQueueMeasure] at hlen
  exact ⟨hnd.1, hlen⟩

/- ------------------------------------------------------------------ -/
/- C7: recovery-file round trip (`ScrapeState.to_dict`/`from_dict`).   -/
/- ------------------------------------------------------------------ -/

/-- The character for a decimal digit. -/
def digitChar (d : Nat) : Char := Char.ofNat (48 + d)

/-- The decimal value of a digit character. -/
def charVal (c : Char) : Nat := c.toNat - 48

/-- Decimal digit characters of `n`, most significant first. -/
def natChars (n : Nat) : List Char :=
  ((Nat.digits 10 n).map digitChar).reverse

/-- `n` printed in decimal, left padded with zeros to width `w`
(Python `"%0*d"`). -/
def padDigits (w n : Nat) : List Char :=
  List.replicate (w - (natChars n).length) '0' ++ natChars n

/-- Decimal value of a digit-character run. -/
def valOf (cs : List Char) : Nat :=
  cs.foldl (fun a c => a * 10 + charVal c) 0

theorem charVal_digitChar : ∀ d < 10, charVal (digitChar d) = d := by decide

theorem digitChar_isDigit : ∀ d < 10, (digitChar d).isDigit = true := by
  decide

theorem foldl_val_zeros (cs : List Char) :
    ∀ k, (List.replicate k '0' ++ cs).foldl
        (fun a c => a * 10 + charVal c) 0 =
      cs.foldl (fun a c => a * 10 + charVal c) 0 := by
  intro k
  induction k with
  | zero => rfl
  | succ m ih =>
    rw [List.replicate_succ, List.cons_append, List.foldl_cons]
    have : (0 : Nat) * 10 + charVal '0' = 0 := by decide
    rw [this]
    exact ih

theorem valOf_natChars (n : Nat) : valOf (natChars n) = n := by
  unfold valOf natChars
  rw [List.foldl_reverse, List.foldr_map]
  have h : ∀ L : List Nat, (∀ d ∈ L, d < 10) →
      L.foldr (fun d a => a * 10 + charVal (digitChar d)) 0 =
        Nat.ofDigits 10 L := by
    intro L
    induction L with
    | nil => intro _; rfl
    | cons d tl ih =>
      intro hL
      rw [List.foldr_cons, Nat.ofDigits_cons,
        ih (fun x hx => hL x (List.mem_cons_of_mem _ hx)),
        charVal_digitChar d (hL d (List.mem_cons_self _ _))]
      ring
  rw [h (Nat.digits 10 n) (fun d hd => Nat.digits_lt_base (by omega) hd)]
  exact_mod_cast Nat.ofDigits_digits 10 n

theorem natChars_length_le (w n : Nat) (h : n < 10 ^ w) :
    (natChars n).length ≤ w := by
  unfold natChars
  rw [List.length_reverse, List.length_map]
  by_cases hn : n = 0
  · subst hn
    simp
  · rw [Nat.digits_len 10 n (by omega) hn]
    have := Nat.log_lt_of_lt_pow hn h
    omega

theorem padDigits_length (w n : Nat) (h : n < 10 ^ w) :
    (padDigits w n).length = w := by
  unfold padDigits
  rw [List.length_append, List.length_replicate]
  have := natChars_length_le w n h
  omega

theorem padDigits_all_digit (w n : Nat) :
    (padDigits w n).all Char.isDigit = true := by
  rw [List.all_eq_true]
  intro c hc
  unfold padDigits at hc
  rcases List.mem_append.mp hc with h | h
  · rw [List.eq_of_mem_replicate h]
    decide
  · unfold natChars at h
    rw [List.mem_reverse] at h
    obtain ⟨d, hd, hde⟩ := List.mem_map.mp h
    rw [← hde]
    exact digitChar_isDigit d (Nat.digits_lt_base (by omega) hd)

theorem valOf_padDigits (w n : Nat) : valOf (padDigits w n) = n := by
  unfold padDigits valOf
  rw [foldl_val_zeros]
  exact valOf_natChars n

/-- Fixed-width decimal field of the ISO parser: take `w` characters,
require them all digits, return their value and the remainder. -/
def takeNum (w : Nat) (l : List Char) : Option (Nat × List Char) :=
  if (l.take w).length = w ∧ (l.take w).all Char.isDigit then
    some (valOf (l.take w), l.drop w)
  else none

/-- Single expected literal character of the ISO parser. -/
def expectChar (c : Char) : List Char → Option (List Char)
  | x :: xs => if x = c then some xs else none
  | [] => none

theorem takeNum_pad (w n : Nat) (rest : List Char) (h : n < 10 ^ w) :
    takeNum w (padDigits w n ++ rest) = some (n, rest) := by
  unfold takeNum
  have hlen := padDigits_length w n h
  rw [List.take_left' hlen, List.drop_left' hlen]
  rw [if_pos ⟨hlen, padDigits_all_digit w n⟩, valOf_padDigits]

theorem takeNum_pad_exact (w n : Nat) (h : n < 10 ^ w) :
    takeNum w (padDigits w n) = some (n, []) := by
  have := takeNum_pad w n [] h
  rwa [List.append_nil] at this

theorem expectChar_cons (c : Char) (rest : List Char) :
    expectChar c (c :: rest) = some rest := by
  simp [expectChar]

/-- `datetime.isoformat()`: `YYYY-MM-DDTHH:MM:SS`, with `.ffffff`
appended iff the microsecond field is non-zero. -/
def PyDateTime.isoformat (t : PyDateTime) : String :=
  String.mk (padDigits 4 t.year ++ '-' :: (padDigits 2 t.month ++ '-' ::
    (padDigits 2 t.day ++ 'T' :: (padDigits 2 t.hour ++ ':' ::
    (padDigits 2 t.minute ++ ':' :: (padDigits 2 t.second ++
    (if t.microsecond = 0 then []
     else '.' :: padDigits 6 t.microsecond)))))))

/-- `datetime.fromisoformat` on the grammar `isoformat` emits; any
malformed input yields `none` (which `ScrapeState.from_dict` replaces by
`datetime.now()`). -/
def PyDateTime.fromisoformat (s : String) : Option PyDateTime :=
  (takeNum 4 s.data).bind fun yr =>
  (expectChar '-' yr.2).bind fun r1 =>
  (takeNum 2 r1).bind fun mr =>
  (expectChar '-' mr.2).bind fun r2 =>
  (takeNum 2 r2).bind fun dr =>
  (expectChar 'T' dr.2).bind fun r3 =>
  (takeNum 2 r3).bind fun hr =>
  (expectChar ':' hr.2).bind fun r4 =>
  (takeNum 2 r4).bind fun nr =>
  (expectChar ':' nr.2).bind fun r5 =>
  (takeNum 2 r5).bind fun sr =>
  match sr.2 with
  | [] => some ⟨yr.1, mr.1, dr.1, hr.1, nr.1, sr.1, 0⟩
  | x :: r6 =>
    if x = '.' then
      (takeNum 6 r6).bind fun ur =>
      if ur.2.isEmpty then
        some ⟨yr.1, mr.1, dr.1, hr.1, nr.1, sr.1, ur.1⟩
      else none
    else none

theorem fromisoformat_isoformat (t : PyDateTime) (hv : t.valid) :
    PyDateTime.fromisoformat t.isoformat = some t := by
  obtain ⟨hy1, hy2, hm1, hm2, hd1, hd2, hh, hmi, hs, hus⟩ := hv
  unfold PyDateTime.isoformat PyDateTime.fromisoformat
  show (takeNum 4 (padDigits 4 t.year ++ _)).bind _ = _
  rw [takeNum_pad 4 t.year _ (by omega), Option.some_bind]
  try dsimp only
  rw [expectChar_cons, Option.some_bind]
  try dsimp only
  rw [takeNum_pad 2 t.month _ (by omega), Option.some_bind]
  try dsimp only
  rw [expectChar_cons, Option.some_bind]
  try dsimp only
  rw [takeNum_pad 2 t.day _ (by omega), Option.some_bind]
  try dsimp only
  rw [expectChar_cons, Option.some_bind]
  try dsimp only
  rw [takeNum_pad 2 t.hour _ (by omega), Option.some_bind]
  try dsimp only
  rw [expectChar_cons, Option.some_bind]
  try dsimp only
  rw [takeNum_pad 2 t.minute _ (by omega), Option.some_bind]
  try dsimp only
  rw [expectChar_cons, Option.some_bind]
  try dsimp only
  by_cases hz : t.microsecond = 0
  · rw [hz]
    rw [if_pos rfl, takeNum_pad 2 t.second [] (by omega), Option.some_bind]
    try dsimp only
    rw [← hz]
  · rw [if_neg hz, takeNum_pad 2 t.second _ (by omega), Option.some_bind]
    try dsimp only
    rw [if_pos rfl, takeNum_pad_exact 6 t.microsecond (by omega),
      Option.some_bind]
    try dsimp only
    rfl

/-- `ScrapeState.to_dict`: each set as a sorted array, the timestamp in
ISO form. -/
def ScrapeState.to_dict (s : ScrapeState) : StateDict :=
  { discovered := s.discovered.sort (· ≤ ·)
    pending := s.pending.sort (· ≤ ·)
    completed := s.completed.sort (· ≤ ·)
    failed := s.failed.sort (· ≤ ·)
    last_updated := s.last_updated.isoformat }

/-- `ScrapeState.from_dict`: sets rebuilt from the stored arrays in any
order; an unparsable timestamp falls back to `datetime.now()` (`now`). -/
def ScrapeState.from_dict (now : PyDateTime) (d : StateDict) : ScrapeState :=
  { discovered := d.discovered.toFinset
    pending := d.pending.toFinset
    completed := d.completed.toFinset
    failed := d.failed.toFinset
    last_updated := (PyDateTime.fromisoformat d.last_updated).getD now }

/-- C7: serializing a crawl state and deserializing it back yields an
equal state for every state with a valid timestamp — the four sets
round-trip through their sorted arrays and the timestamp through its ISO
form; and deserialization is order-independent: permuting the stored
arrays changes nothing. -/
theorem C7_state_roundtrip (s : ScrapeState) (now : PyDateTime)
    (hv : s.last_updated.valid) :
    ScrapeState.from_dict now s.to_dict = s ∧
    (∀ d d' : StateDict, d.discovered.Perm d'.discovered →
      d.pending.Perm d'.pending → d.completed.Perm d'.completed →
      d.failed.Perm d'.failed → d.last_updated = d'.last_updated →
      ScrapeState.from_dict now d = ScrapeState.from_dict now d') := by
  constructor
  · unfold ScrapeState.from_dict ScrapeState.to_dict
    rw [fromisoformat_isoformat s.last_updated hv]
    simp [Finset.sort_toFinset]
  · intro d d' h1 h2 h3 h4 h5
    unfold ScrapeState.from_dict
    have e1 : d.discovered.toFinset = d'.discovered.toFinset := by
      ext a; simp [List.mem_toFinset, h1.mem_iff]
    have e2 : d.pending.toFinset = d'.pending.toFinset := by
      ext a; simp [List.mem_toFinset, h2.mem_iff]
    have e3 : d.completed.toFinset = d'.completed.toFinset := by
      ext a; simp [List.mem_toFinset, h3.mem_iff]
    have e4 : d.failed.toFinset = d'.failed.toFinset := by
      ext a; simp [List.mem_toFinset, h4.mem_iff]
    rw [e1, e2, e3, e4, h5]

/-- C7 witness: a concrete state with non-empty sets and both timestamp
shapes (zero and non-zero microseconds) round-trips. -/
theorem C7_state_roundtrip_witness :
    (let s1 : ScrapeState :=
      { discovered := {"r2", "r1", "r3"}, pending := {"r3"},
        completed := {"r1", "r2"}, failed := {"r9"},
        last_updated := ⟨2024, 3, 7, 15, 30, 59, 0⟩ }
     let s2 : ScrapeState :=
      { discovered := {"r1"}, pending := ∅, completed := {"r1"},
        failed := ∅, last_updated := ⟨1999, 12, 31, 23, 59, 59, 123456⟩ }
     let now : PyDateTime := ⟨2030, 1, 1, 0, 0, 0, 0⟩
     ScrapeState.from_dict now s1.to_dict = s1 ∧
       ScrapeState.from_dict now s2.to_dict = s2) :=
  ⟨(C7_state_roundtrip _ _ (by decide)).1,
   (C7_state_roundtrip _ _ (by decide)).1⟩
